import Mathlib

/-!
Verification development for the OpenRouter completion client in
`src/lib/ai-utils.ts`: the Zod-to-JSON-Schema compiler (`zodToJsonSchema`),
the multi-step tool-calling loop (`generateText`), the structured
generation call (`generateObject`), and the stop-condition helper
(`stepCountIs`).

The HTTP layer is abstracted: an endpoint is a function from the current
step count (the number of prior round trips) to the response the server
gives for that request; request construction (model name, headers,
max_tokens, temperature, the tool manifest) is absorbed into that
abstraction since it only affects what the opaque server replies.
-/

namespace DraftlyAI

/-- A validation-schema node, the closed tagged-variant form of the Zod
schemas that `zodToJsonSchema` dispatches on at runtime: object (ordered
fields), string, number, boolean, array (with optional min/max item
counts), string-enum, optional wrapper, and a catch-all for any schema
the compiler does not recognize (source line: `return { type: "string" }`
fallback). Leaf nodes carry the optional `description`. -/
inductive SchemaNode : Type where
  | obj (fields : List (String × SchemaNode))
  | str (desc : Option String)
  | num (desc : Option String)
  | bool (desc : Option String)
  | arr (elem : SchemaNode) (minItems maxItems : Option Nat) (desc : Option String)
  | enum (values : List String) (desc : Option String)
  | opt (inner : SchemaNode)
  | other


/-- The compiled JSON-Schema document: `type`, optional `properties`,
optional `required` list (absent, not empty, when nothing is required),
optional `items`, `enum`, `minItems`, `maxItems`, `description`, and
optional `additionalProperties`. An `Option` field set to `none` models
the key being absent from the emitted JSON object (in the source,
a field assigned `undefined` is dropped by `JSON.stringify`). -/
inductive JsonSchemaDoc : Type where
  | mk (type : String)
       (properties : Option (List (String × JsonSchemaDoc)))
       (required : Option (List String))
       (items : Option JsonSchemaDoc)
       (enumVals : Option (List String))
       (minItems maxItems : Option Nat)
       (description : Option String)
       (additionalProperties : Option Bool)


/-- Model of Zod's `schema.isOptional()` on the closed node universe:
true exactly for `Optional` wrappers (`z.string().optional()` etc.),
false for every concrete node. -/
def isOptionalNode : SchemaNode → Bool
  | .opt _ => true
  | _ => false

mutual

/-- Embedding of `zodToJsonSchema` (src/lib/ai-utils.ts lines 47-105):
structural dispatch on the node kind. Objects compile each field in
declaration order, collect `required` from the non-optional fields
(key absent when that list is empty), and fix
`additionalProperties: false`; `Optional` falls through to its inner
node; an unrecognized node degrades to `{type:"string"}`. -/
def zodToJsonSchema : SchemaNode → JsonSchemaDoc
  | .obj fields =>
      let properties := compileFields fields
      let required := (fields.filter (fun kv => !(isOptionalNode kv.2))).map Prod.fst
      .mk "object" (some properties)
        (if required.length > 0 then some required else none)
        none none none none none (some false)
  | .str desc => .mk "string" none none none none none none desc none
  | .num desc => .mk "number" none none none none none none desc none
  | .bool desc => .mk "boolean" none none none none none none desc none
  | .arr elem minItems maxItems desc =>
      .mk "array" none none (some (zodToJsonSchema elem)) none minItems maxItems desc none
  | .enum values desc => .mk "string" none none none (some values) none none desc none
  | .opt inner => zodToJsonSchema inner
  | .other => .mk "string" none none none none none none none none

/-- Compiles the fields of an object node in declaration order
(the `for (const [key, value] of Object.entries(shape))` walk that
fills `properties`). -/
def compileFields : List (String × SchemaNode) → List (String × JsonSchemaDoc)
  | [] => []
  | (k, v) :: rest => (k, zodToJsonSchema v) :: compileFields rest

end

/-- The `required` key of a compiled document (`none` = key absent). -/
def requiredOf : JsonSchemaDoc → Option (List String)
  | .mk _ _ required _ _ _ _ _ _ => required

/-- The `properties` key of a compiled document. -/
def propertiesOf : JsonSchemaDoc → Option (List (String × JsonSchemaDoc))
  | .mk _ properties _ _ _ _ _ _ _ => properties

/-- The `type` key of a compiled document. -/
def typeOf : JsonSchemaDoc → String
  | .mk type _ _ _ _ _ _ _ _ => type

/-- The `additionalProperties` key of a compiled document. -/
def additionalPropertiesOf : JsonSchemaDoc → Option Bool
  | .mk _ _ _ _ _ _ _ _ ap => ap

mutual

/-- Strictness invariant over a compiled document: every node of
`type:"object"` anywhere in the tree carries
`additionalProperties: false`, checked recursively through
`properties` and `items`. -/
def docStrict : JsonSchemaDoc → Bool
  | .mk type properties _ items _ _ _ _ ap =>
      (type != "object" || ap == some false)
      && (match properties with
          | none => true
          | some ps => docsStrict ps)
      && (match items with
          | none => true
          | some d => docStrict d)

/-- Strictness of every document in a `properties` list. -/
def docsStrict : List (String × JsonSchemaDoc) → Bool
  | [] => true
  | (_, d) :: rest => docStrict d && docsStrict rest

end

/-- A parsed JSON value. Models the values produced by the host
language's `JSON.parse` on the fragment this client exchanges; numbers
are modelled as integers (the repository's schemas and examples only
use integral numbers). -/
inductive Json : Type where
  | null
  | bool (b : Bool)
  | num (n : Int)
  | str (s : String)
  | arr (elems : List Json)
  | obj (fields : List (String × Json))

/-- Opening-brace character (code point 123). -/
def lbraceChar : Char := Char.ofNat 123

/-- Closing-brace character (code point 125). -/
def rbraceChar : Char := Char.ofNat 125

/-- Drops leading JSON whitespace. -/
def skipWs : List Char → List Char
  | [] => []
  | c :: rest =>
      if c = ' ' || c = '\n' || c = '\t' || c = '\r' then skipWs rest
      else c :: rest

/-- Consumes the expected literal characters, returning the remainder. -/
def dropLead : List Char → List Char → Option (List Char)
  | [], cs => some cs
  | _ :: _, [] => none
  | l :: lt, c :: ct => if c = l then dropLead lt ct else none

/-- Reads the body of a JSON string after the opening quote, handling
backslash escapes, up to the closing quote. -/
def parseStringRest : List Char → Option (String × List Char)
  | [] => none
  | c :: rest =>
      if c = '"' then some ("", rest)
      else if c = '\\' then
        match rest with
        | [] => none
        | e :: rest2 =>
            let dec := if e = 'n' then '\n' else if e = 't' then '\t' else e
            (parseStringRest rest2).map (fun p => (String.mk (dec :: p.1.data), p.2))
      else (parseStringRest rest).map (fun p => (String.mk (c :: p.1.data), p.2))

/-- Splits off a maximal run of leading decimal digits. -/
def takeDigits : List Char → (List Char × List Char)
  | [] => ([], [])
  | c :: rest =>
      if c.isDigit then
        let p := takeDigits rest
        (c :: p.1, p.2)
      else ([], c :: rest)

/-- Numeric value of a digit run. -/
def digitsToNat (ds : List Char) : Nat :=
  ds.foldl (fun acc c => acc * 10 + (c.toNat - 48)) 0

mutual

/-- Fuel-bounded recursive-descent JSON value parser; models the host
language's builtin `JSON.parse` on the JSON fragment exchanged with the
endpoint (objects, arrays, strings, integral numbers, booleans, null). -/
def parseValue : Nat → List Char → Option (Json × List Char)
  | 0, _ => none
  | fuel + 1, cs =>
      match skipWs cs with
      | [] => none
      | c :: rest =>
          if c = '"' then
            (parseStringRest rest).map (fun p => (Json.str p.1, p.2))
          else if c = lbraceChar then
            let cs1 := skipWs rest
            match cs1 with
            | r :: rt =>
                if r = rbraceChar then some (Json.obj [], rt)
                else (parseMembers fuel cs1).map (fun p => (Json.obj p.1, p.2))
            | [] => none
          else if c = '[' then
            let cs1 := skipWs rest
            match cs1 with
            | r :: rt =>
                if r = ']' then some (Json.arr [], rt)
                else (parseElems fuel cs1).map (fun p => (Json.arr p.1, p.2))
            | [] => none
          else if c = 't' then
            (dropLead ['r', 'u', 'e'] rest).map (fun r => (Json.bool true, r))
          else if c = 'f' then
            (dropLead ['a', 'l', 's', 'e'] rest).map (fun r => (Json.bool false, r))
          else if c = 'n' then
            (dropLead ['u', 'l', 'l'] rest).map (fun r => (Json.null, r))
          else if c = '-' then
            match takeDigits rest with
            | ([], _) => none
            | (ds, r) => some (Json.num (-(digitsToNat ds : Int)), r)
          else if c.isDigit then
            let p := takeDigits (c :: rest)
            some (Json.num (digitsToNat p.1 : Int), p.2)
          else none

/-- Parses the members of a JSON object after the opening brace
(at least one member; the empty object is handled by the caller). -/
def parseMembers : Nat → List Char → Option (List (String × Json) × List Char)
  | 0, _ => none
  | fuel + 1, cs =>
      match skipWs cs with
      | [] => none
      | c :: rest =>
          if c = '"' then
            match parseStringRest rest with
            | none => none
            | some (key, r1) =>
                match skipWs r1 with
                | [] => none
                | c2 :: r2 =>
                    if c2 = ':' then
                      match parseValue fuel r2 with
                      | none => none
                      | some (v, r3) =>
                          match skipWs r3 with
                          | [] => none
                          | c3 :: r4 =>
                              if c3 = ',' then
                                (parseMembers fuel r4).map
                                  (fun p => ((key, v) :: p.1, p.2))
                              else if c3 = rbraceChar then
                                some ([(key, v)], r4)
                              else none
                    else none
          else none

/-- Parses the elements of a JSON array after the opening bracket
(at least one element; the empty array is handled by the caller). -/
def parseElems : Nat → List Char → Option (List Json × List Char)
  | 0, _ => none
  | fuel + 1, cs =>
      match parseValue fuel cs with
      | none => none
      | some (v, r1) =>
          match skipWs r1 with
          | [] => none
          | c2 :: r2 =>
              if c2 = ',' then
                (parseElems fuel r2).map (fun p => (v :: p.1, p.2))
              else if c2 = ']' then
                some ([v], r2)
              else none

end

/-- Model of `JSON.parse`: parses the whole string as a single JSON
value (allowing surrounding whitespace), returning `none` where the
builtin would throw a `SyntaxError`. -/
def jsonParse (s : String) : Option Json :=
  match parseValue (2 * s.length + 2) s.data with
  | some (j, rest) => if skipWs rest = [] then some j else none
  | none => none

mutual

/-- Modelled from the spec: the schema's own validation semantics
(`schema.parse` of the Zod library, whose implementation is not part of
this repository). A value validates against a node exactly when its
shape matches: objects field-by-field (a missing field is accepted only
for an `Optional` node), arrays element-wise with the length bounds,
enums by membership, `Optional` by the inner node, and the catch-all
node accepts anything (the compiler emitted no constraint for it).
Validation never coerces: on success the parsed value is returned to
the caller unchanged. -/
def zodCheck : SchemaNode → Json → Bool
  | .obj fields, .obj jfields => zodCheckFields fields jfields
  | .obj _, _ => false
  | .str _, .str _ => true
  | .str _, _ => false
  | .num _, .num _ => true
  | .num _, _ => false
  | .bool _, .bool _ => true
  | .bool _, _ => false
  | .arr elem minI maxI _, .arr elems =>
      zodCheckList elem elems
      && (match minI with
          | none => true
          | some m => decide (m ≤ elems.length))
      && (match maxI with
          | none => true
          | some m => decide (elems.length ≤ m))
  | .arr _ _ _ _, _ => false
  | .enum values _, .str s => values.contains s
  | .enum _ _, _ => false
  | .opt inner, j => zodCheck inner j
  | .other, _ => true

/-- Validates each declared field of an object schema against the JSON
object's fields. -/
def zodCheckFields : List (String × SchemaNode) → List (String × Json) → Bool
  | [], _ => true
  | (name, node) :: rest, jfields =>
      (match jfields.lookup name with
       | some v => zodCheck node v
       | none => isOptionalNode node)
      && zodCheckFields rest jfields

/-- Validates every array element against the element schema. -/
def zodCheckList : SchemaNode → List Json → Bool
  | _, [] => true
  | node, j :: rest => zodCheck node j && zodCheckList node rest

end

/-- A tool call as it appears on the wire inside an assistant message:
`tool_calls: [{id, function: {name, arguments: <JSON string>}}]`. -/
structure ToolCallWire : Type where
  id : String
  name : String
  arguments : String

/-- The assistant message inside a successful endpoint reply
(`data.choices[0].message`): its role, its content, and its tool calls
(`[]` models an absent or empty `tool_calls` field, the two cases the
source treats identically). -/
structure AssistantMsg : Type where
  role : String
  content : String
  tool_calls : List ToolCallWire

/-- One HTTP round trip's outcome, as the client observes it: either a
2xx reply carrying the assistant message, or a non-2xx reply whose body
text is `body` (what `await response.text()` yields). -/
inductive HttpResponse : Type where
  | ok (msg : AssistantMsg)
  | err (body : String)

/-- An endpoint: the response the server gives to the request issued
when the client's step counter has the given value (the number of
round trips already completed). -/
def Endpoint : Type := Nat → HttpResponse

/-- A transcript message (the source's `Message` interface): role,
content, and the optional `tool_call_id` and `name` fields that tool
result messages carry. -/
structure Message : Type where
  role : String
  content : String
  tool_call_id : Option String := none
  name : Option String := none

/-- A caller-supplied tool (the source's tool definition shape made by
`createTool`): description, input schema, and the executor. The
executor is modelled as a pure function from parsed arguments to the
result value that the source then `JSON.stringify`s; stringification is
modelled by keeping the result value in the content slot's serialized
form via `toolResultContent`. -/
structure ToolDef : Type where
  description : String
  inputSchema : SchemaNode
  execute : Json → Json

/-- The caller's tool set: the `tools?: Record<string, ...>` parameter,
an optional association of tool names to definitions. -/
def ToolSet : Type := Option (List (String × ToolDef))

/-- Model of `tools?.[toolName]`: looks the called name up in the tool
set, `none` when no tool set was supplied or the name is unregistered. -/
def lookupTool (tools : ToolSet) (name : String) : Option ToolDef :=
  match tools with
  | none => none
  | some ts => ts.lookup name

/-- The error outcomes of the client, following the spec's taxonomy:
a non-2xx response (`transportError` carries the thrown error's whole
message), unparseable tool-call arguments (`malformedToolArgs` carries
the offending raw string), an unparseable structured-generation reply
body (`malformedResponse` carries the content), and a structured reply
that fails schema validation (`schemaValidation`). -/
inductive GenError : Type where
  | transportError (message : String)
  | malformedToolArgs (raw : String)
  | malformedResponse (content : String)
  | schemaValidation

/-- Escapes quotes and backslashes in a string body for serialization. -/
def escapeString (s : String) : String :=
  String.mk (s.data.foldr
    (fun c acc =>
      if c = '"' || c = '\\' then '\\' :: c :: acc
      else if c = '\n' then '\\' :: 'n' :: acc
      else c :: acc) [])

mutual

/-- Model of the host language's `JSON.stringify` on parsed values
(compact form, as the source calls it without indentation when
serializing tool results). -/
def jsonStringify : Json → String
  | .null => "null"
  | .bool true => "true"
  | .bool false => "false"
  | .num n => toString n
  | .str s => "\"" ++ escapeString s ++ "\""
  | .arr elems => "[" ++ stringifyElems elems ++ "]"
  | .obj fields =>
      lbraceChar.toString ++ stringifyFields fields ++ rbraceChar.toString

/-- Serializes array elements, comma separated. -/
def stringifyElems : List Json → String
  | [] => ""
  | [j] => jsonStringify j
  | j :: rest => jsonStringify j ++ "," ++ stringifyElems rest

/-- Serializes object members, comma separated. -/
def stringifyFields : List (String × Json) → String
  | [] => ""
  | [(k, v)] => "\"" ++ escapeString k ++ "\":" ++ jsonStringify v
  | (k, v) :: rest =>
      "\"" ++ escapeString k ++ "\":" ++ jsonStringify v ++ "," ++ stringifyFields rest

end

/-- Embedding of the tool-execution walk inside one loop iteration
(src/lib/ai-utils.ts lines 172-186): for each tool call, in emitted
order, parse the JSON `arguments` string (an unparseable string throws,
aborting the whole loop — modelled as `.error`), then look the name up
in the caller's tool set; a registered tool is executed and a
`role:"tool"` message with the serialized result, the originating call
id, and the tool name is appended; an unregistered name is skipped with
no message and no error. Returns the tool messages appended by the
walk. -/
def processToolCalls (tools : ToolSet) : List ToolCallWire → Except GenError (List Message)
  | [] => .ok []
  | tc :: rest =>
      match jsonParse tc.arguments with
      | none => .error (.malformedToolArgs tc.arguments)
      | some toolArgs =>
          match lookupTool tools tc.name with
          | some tool =>
              let result := tool.execute toolArgs
              match processToolCalls tools rest with
              | .error e => .error e
              | .ok msgs =>
                  .ok ({ role := "tool"
                         content := jsonStringify result
                         tool_call_id := some tc.id
                         name := some tc.name } :: msgs)
          | none => processToolCalls tools rest

/-- Evaluates the optional caller-supplied `stopWhen` predicate
(`options.stopWhen && options.stopWhen(stepCount)`: absent means the
loop does not stop on its account). -/
def evalStopWhen (stopWhen : Option (Nat → Bool)) (stepCount : Nat) : Bool :=
  match stopWhen with
  | some f => f stepCount
  | none => false

/-- Embedding of the `while (!shouldStop)` loop of `generateText`
(src/lib/ai-utils.ts lines 139-201). Each iteration sends the
transcript (one HTTP round trip, modelled by indexing the endpoint with
the current step count); a non-2xx reply throws
`"OpenRouter API error: <body>"`; otherwise the assistant message is
appended and the step counter incremented. A reply with at least one
tool call runs the tool walk and then stops if `stopWhen(stepCount)`
holds; a reply with no tool calls stops; independently, the safety
limit stops the loop once the counter reaches 10. On normal
termination the final transcript and final step count are returned. -/
def generateTextLoop (endpoint : Endpoint) (tools : ToolSet)
    (stopWhen : Option (Nat → Bool)) (messages : List Message)
    (stepCount : Nat) : Except GenError (List Message × Nat) :=
  match endpoint stepCount with
  | .err body => .error (.transportError ("OpenRouter API error: " ++ body))
  | .ok assistantMessage =>
      let messages1 := messages ++
        [{ role := assistantMessage.role, content := assistantMessage.content }]
      let stepCount1 := stepCount + 1
      if assistantMessage.tool_calls.length > 0 then
        match processToolCalls tools assistantMessage.tool_calls with
        | .error e => .error e
        | .ok toolMsgs =>
            let messages2 := messages1 ++ toolMsgs
            if evalStopWhen stopWhen stepCount1 || 10 ≤ stepCount1 then
              .ok (messages2, stepCount1)
            else
              generateTextLoop endpoint tools stopWhen messages2 stepCount1
      else
        .ok (messages1, stepCount1)
termination_by 10 - stepCount
decreasing_by
  rename_i h
  simp only [Bool.or_eq_true, decide_eq_true_eq, not_or] at h
  omega

/-- The initial transcript of a call: the optional system message
followed by the user prompt (src/lib/ai-utils.ts lines 115-119). -/
def initialMessages (system : Option String) (prompt : String) : List Message :=
  (match system with
   | some s => [{ role := "system", content := s }]
   | none => []) ++ [{ role := "user", content := prompt }]

/-- Embedding of `generateText` (src/lib/ai-utils.ts lines 110-208):
runs the loop from the initial transcript with the counter at zero and
returns the final text — the content of the last transcript entry when
that entry has the assistant role, the empty string otherwise. -/
def generateText (endpoint : Endpoint) (system : Option String)
    (prompt : String) (tools : ToolSet) (stopWhen : Option (Nat → Bool)) :
    Except GenError String :=
  match generateTextLoop endpoint tools stopWhen (initialMessages system prompt) 0 with
  | .error e => .error e
  | .ok (messages, _) =>
      match messages.getLast? with
      | some lastMessage =>
          .ok (if lastMessage.role = "assistant" then lastMessage.content else "")
      | none => .ok ""

/-- Embedding of `generateObject` (src/lib/ai-utils.ts lines 213-264):
a single round trip (the request carries the prompt, the pretty-printed
compiled schema, and JSON response format; all absorbed into the
endpoint reply). A non-2xx reply throws
`"OpenRouter API error: <body>"`; otherwise the reply content is parsed
as JSON (`MalformedResponse` when not valid JSON) and the parsed value
is validated against the caller's schema (`SchemaValidationError` when
it does not match), and the validated object is returned. -/
def generateObject (reply : HttpResponse) (schema : SchemaNode) :
    Except GenError Json :=
  match reply with
  | .err body => .error (.transportError ("OpenRouter API error: " ++ body))
  | .ok msg =>
      match jsonParse msg.content with
      | none => .error (.malformedResponse msg.content)
      | some parsed =>
          if zodCheck schema parsed then .ok parsed
          else .error .schemaValidation

/-- Embedding of `stepCountIs` (src/lib/ai-utils.ts lines 269-271):
the returned predicate holds when `currentCount >= count`. -/
def stepCountIs (count : Nat) : Nat → Bool :=
  fun currentCount => decide (count ≤ currentCount)

/-- With duplicate-free field names (guaranteed by the source, where the
fields come from a record's `Object.entries`), a name determines its
node. -/
theorem assoc_nodup_eq {fields : List (String × SchemaNode)}
    (hnd : (fields.map Prod.fst).Nodup) {a : String} {b c : SchemaNode}
    (hb : (a, b) ∈ fields) (hc : (a, c) ∈ fields) : b = c := by
  induction fields with
  | nil => cases hb
  | cons hd tl ih =>
      rw [List.map_cons, List.nodup_cons] at hnd
      rcases List.mem_cons.mp hb with hb1 | hb1 <;>
        rcases List.mem_cons.mp hc with hc1 | hc1
      · injection hb1.trans hc1.symm
      · exact absurd (List.mem_map.mpr ⟨(a, c), hc1, by rw [← hb1]⟩) hnd.1
      · exact absurd (List.mem_map.mpr ⟨(a, b), hb1, by rw [← hc1]⟩) hnd.1
      · exact ih hnd.2 hb1 hc1

mutual

/-- Every compiled document is strict: each `type:"object"` node in it
carries `additionalProperties: false`. -/
theorem zodToJsonSchema_docStrict : ∀ n : SchemaNode, docStrict (zodToJsonSchema n) = true
  | .obj fields => by
      have h := compileFields_docsStrict fields
      simp [zodToJsonSchema, docStrict, h]
  | .str desc => by simp [zodToJsonSchema, docStrict]
  | .num desc => by simp [zodToJsonSchema, docStrict]
  | .bool desc => by simp [zodToJsonSchema, docStrict]
  | .arr elem minI maxI desc => by
      have h := zodToJsonSchema_docStrict elem
      simp [zodToJsonSchema, docStrict, h]
  | .enum values desc => by simp [zodToJsonSchema, docStrict]
  | .opt inner => by
      simp only [zodToJsonSchema]
      exact zodToJsonSchema_docStrict inner
  | .other => by simp [zodToJsonSchema, docStrict]

/-- Every document in a compiled `properties` list is strict. -/
theorem compileFields_docsStrict :
    ∀ l : List (String × SchemaNode), docsStrict (compileFields l) = true
  | [] => by simp [compileFields, docsStrict]
  | (k, v) :: rest => by
      simp only [compileFields, docsStrict, Bool.and_eq_true]
      exact ⟨zodToJsonSchema_docStrict v, compileFields_docsStrict rest⟩

end

/-- Claim C7: for every schema node and at every nesting depth, each
Object node in the compiled output carries `additionalProperties:
false`. -/
theorem c7_additionalProperties_false (n : SchemaNode) :
    docStrict (zodToJsonSchema n) = true :=
  zodToJsonSchema_docStrict n

/-- The `required` key of a compiled object node: the names of the
non-`Optional` fields when at least one exists, absent otherwise. -/
theorem requiredOf_obj (fields : List (String × SchemaNode)) :
    requiredOf (zodToJsonSchema (.obj fields)) =
      (if 0 < ((fields.filter (fun kv => !(isOptionalNode kv.2))).map Prod.fst).length
       then some ((fields.filter (fun kv => !(isOptionalNode kv.2))).map Prod.fst)
       else none) := by
  simp only [zodToJsonSchema, requiredOf, List.length_map]

/-- Claim C2: with duplicate-free field names, a field whose declared
node is `Optional` never appears in the compiled `required` list, a
field whose node is not `Optional` always does, and when every field is
optional the compiled document carries no `required` key at all. -/
theorem c2_required_semantics (fields : List (String × SchemaNode))
    (hnd : (fields.map Prod.fst).Nodup) :
    (∀ name node, (name, node) ∈ fields → isOptionalNode node = true →
      ∀ l, requiredOf (zodToJsonSchema (.obj fields)) = some l → name ∉ l)
    ∧ (∀ name node, (name, node) ∈ fields → isOptionalNode node = false →
      ∃ l, requiredOf (zodToJsonSchema (.obj fields)) = some l ∧ name ∈ l)
    ∧ ((∀ p ∈ fields, isOptionalNode p.2 = true) →
      requiredOf (zodToJsonSchema (.obj fields)) = none) := by
  refine ⟨?_, ?_, ?_⟩
  · intro name node hmem hopt l hl hin
    rw [requiredOf_obj] at hl
    split at hl
    · rw [Option.some.injEq] at hl
      rw [← hl] at hin
      obtain ⟨a, hafil, hafst⟩ := List.mem_map.mp hin
      have hafields := (List.mem_filter.mp hafil).1
      have hanopt := (List.mem_filter.mp hafil).2
      have : a.2 = node := by
        refine assoc_nodup_eq hnd ?_ hmem
        rw [← hafst]
        simpa using hafields
      rw [this, hopt] at hanopt
      simp at hanopt
    · cases hl
  · intro name node hmem hopt
    have hin : name ∈ (fields.filter (fun kv => !(isOptionalNode kv.2))).map Prod.fst :=
      List.mem_map.mpr ⟨(name, node), List.mem_filter.mpr ⟨hmem, by simp [hopt]⟩, rfl⟩
    have hlen : 0 < ((fields.filter (fun kv => !(isOptionalNode kv.2))).map Prod.fst).length :=
      List.length_pos.mpr (fun hnil => by rw [hnil] at hin; cases hin)
    exact ⟨_, by rw [requiredOf_obj, if_pos hlen], hin⟩
  · intro hall
    have hfil : fields.filter (fun kv => !(isOptionalNode kv.2)) = [] :=
      List.filter_eq_nil_iff.mpr (fun a ha => by simp [hall a ha])
    rw [requiredOf_obj, hfil]
    simp

/-- Witness for C2 at a concrete object schema with one required and
one optional field. -/
theorem c2_witness :
    (("a", SchemaNode.str none) ∈
        [("a", SchemaNode.str none), ("b", SchemaNode.opt (SchemaNode.str none))]
      ∧ ∃ l, requiredOf (zodToJsonSchema (.obj
          [("a", SchemaNode.str none), ("b", SchemaNode.opt (SchemaNode.str none))])) =
            some l ∧ "a" ∈ l)
    ∧ ∀ l, requiredOf (zodToJsonSchema (.obj
        [("a", SchemaNode.str none), ("b", SchemaNode.opt (SchemaNode.str none))])) =
          some l → "b" ∉ l := by
  constructor
  · refine ⟨by simp, ?_⟩
    exact (c2_required_semantics _ (by simp)).2.1 "a" (SchemaNode.str none) (by simp) rfl
  · exact (c2_required_semantics _ (by simp)).1 "b" (SchemaNode.opt (SchemaNode.str none))
      (by simp) rfl

/-- The schema `Object{fields:{name:String}}` of the spec's structured
generation example. -/
def nameSchema : SchemaNode := .obj [("name", .str none)]

/-- Claim C3: `generateObject` parses the reply content as JSON and
validates it against the caller's schema — it returns the parsed object
exactly when the content is valid JSON that validates (in particular
`{"name":"X"}` against `Object{fields:{name:String}}` returns
`{name:"X"}`), fails with `MalformedResponse` when the content is not
valid JSON, and fails with `SchemaValidationError` when the content is
valid JSON that does not match the schema (in particular `{"name":5}`
against the same schema). -/
theorem c3_generateObject_parse_validate :
    (∀ (msg : AssistantMsg) (schema : SchemaNode) (v : Json),
        generateObject (.ok msg) schema = .ok v ↔
          jsonParse msg.content = some v ∧ zodCheck schema v = true)
    ∧ (∀ (msg : AssistantMsg) (schema : SchemaNode),
        jsonParse msg.content = none →
          generateObject (.ok msg) schema = .error (.malformedResponse msg.content))
    ∧ (∀ (msg : AssistantMsg) (schema : SchemaNode) (j : Json),
        jsonParse msg.content = some j → zodCheck schema j = false →
          generateObject (.ok msg) schema = .error .schemaValidation)
    ∧ generateObject (.ok ⟨"assistant", "\x7b\"name\":\"X\"\x7d", []⟩) nameSchema
        = .ok (Json.obj [("name", Json.str "X")])
    ∧ generateObject (.ok ⟨"assistant", "\x7b\"name\":5\x7d", []⟩) nameSchema
        = .error .schemaValidation := by
  refine ⟨?_, ?_, ?_, ?_, ?_⟩
  · intro msg schema v
    constructor
    · intro he
      cases h : jsonParse msg.content with
      | none =>
          simp only [generateObject, h] at he
          exact Except.noConfusion he
      | some j =>
          simp only [generateObject, h] at he
          by_cases hz : zodCheck schema j = true
          · rw [if_pos hz] at he
            injection he with hv
            subst hv
            exact ⟨rfl, hz⟩
          · rw [if_neg hz] at he
            cases he
    · rintro ⟨h1, h2⟩
      simp [generateObject, h1, h2]
  · intro msg schema h
    simp [generateObject, h]
  · intro msg schema j h1 h2
    simp [generateObject, h1, h2]
  · have hp : jsonParse "\x7b\"name\":\"X\"\x7d" = some (Json.obj [("name", Json.str "X")]) := rfl
    have hz : zodCheck nameSchema (Json.obj [("name", Json.str "X")]) = true := by
      simp [nameSchema, zodCheck, zodCheckFields, List.lookup]
    simp [generateObject, hp, hz]
  · have hp : jsonParse "\x7b\"name\":5\x7d" = some (Json.obj [("name", Json.num 5)]) := rfl
    have hz : zodCheck nameSchema (Json.obj [("name", Json.num 5)]) = false := by
      simp [nameSchema, zodCheck, zodCheckFields, List.lookup]
    simp [generateObject, hp, hz]

/-- Witness for C3: a non-JSON reply body fails with
`MalformedResponse`; a valid-JSON reply of the wrong shape fails with
`SchemaValidationError`. -/
theorem c3_witness :
    generateObject (.ok ⟨"assistant", "not json", []⟩) nameSchema
        = .error (.malformedResponse "not json")
    ∧ generateObject (.ok ⟨"assistant", "5", []⟩) nameSchema
        = .error .schemaValidation := by
  constructor
  · exact c3_generateObject_parse_validate.2.1 ⟨"assistant", "not json", []⟩ nameSchema rfl
  · exact c3_generateObject_parse_validate.2.2.1 ⟨"assistant", "5", []⟩ nameSchema
      (Json.num 5) rfl (by simp [nameSchema, zodCheck])

/-- Every message appended by the tool walk has the `tool` role. -/
theorem processToolCalls_roles (tools : ToolSet) :
    ∀ tcs msgs, processToolCalls tools tcs = .ok msgs →
      ∀ m ∈ msgs, m.role = "tool"
  | [], msgs, h => by
      simp only [processToolCalls, Except.ok.injEq] at h
      subst h
      intro m hm
      cases hm
  | tc :: rest, msgs, h => by
      simp only [processToolCalls] at h
      cases hp : jsonParse tc.arguments with
      | none => rw [hp] at h; exact Except.noConfusion h
      | some args =>
          rw [hp] at h
          cases hl : lookupTool tools tc.name with
          | none =>
              rw [hl] at h
              exact processToolCalls_roles tools rest msgs h
          | some tool =>
              rw [hl] at h
              cases hr : processToolCalls tools rest with
              | error e => rw [hr] at h; exact Except.noConfusion h
              | ok ms =>
                  rw [hr] at h
                  rw [Except.ok.injEq] at h
                  subst h
                  intro m hm
                  rcases List.mem_cons.mp hm with h1 | h1
                  · rw [h1]
                  · exact processToolCalls_roles tools rest ms hr m h1

/-- A tool call whose arguments parse but whose name is unregistered is
skipped: no message, no error. -/
theorem processToolCalls_skip (tools : ToolSet) (tc : ToolCallWire)
    (rest : List ToolCallWire) (j : Json)
    (hp : jsonParse tc.arguments = some j)
    (hl : lookupTool tools tc.name = none) :
    processToolCalls tools (tc :: rest) = processToolCalls tools rest := by
  simp [processToolCalls, hp, hl]

/-- When every call in the turn parses and is unregistered, the walk
appends nothing and succeeds. -/
theorem processToolCalls_all_skip (tools : ToolSet) :
    ∀ tcs, (∀ tc ∈ tcs, (∃ j, jsonParse tc.arguments = some j) ∧
        lookupTool tools tc.name = none) →
      processToolCalls tools tcs = .ok []
  | [], _ => by simp [processToolCalls]
  | tc :: rest, h => by
      obtain ⟨⟨j, hp⟩, hl⟩ := h tc (List.mem_cons_self tc rest)
      rw [processToolCalls_skip tools tc rest j hp hl]
      exact processToolCalls_all_skip tools rest
        (fun x hx => h x (List.mem_cons_of_mem tc hx))

/-- A tool call whose argument string fails JSON parsing makes the
whole walk throw `MalformedToolArgs` (for the first such call in
emitted order), regardless of whether any name is registered. -/
theorem processToolCalls_malformed (tools : ToolSet) :
    ∀ tcs, (∃ tc ∈ tcs, jsonParse tc.arguments = none) →
      ∃ s, processToolCalls tools tcs = .error (.malformedToolArgs s) ∧
        jsonParse s = none
  | [], h => absurd h (by simp)
  | tc :: rest, h => by
      cases hp : jsonParse tc.arguments with
      | none => exact ⟨tc.arguments, by simp [processToolCalls, hp], hp⟩
      | some args =>
          have hrest : ∃ x ∈ rest, jsonParse x.arguments = none := by
            obtain ⟨x, hx, hxp⟩ := h
            rcases List.mem_cons.mp hx with h1 | h1
            · rw [h1] at hxp; rw [hxp] at hp; exact absurd hp (by simp)
            · exact ⟨x, h1, hxp⟩
          obtain ⟨s, hs, hsp⟩ := processToolCalls_malformed tools rest hrest
          refine ⟨s, ?_, hsp⟩
          cases hl : lookupTool tools tc.name with
          | none => simp [processToolCalls, hp, hl, hs]
          | some tool => simp [processToolCalls, hp, hl, hs]

/-- The loop's final step count never exceeds 10 (from a start value
at most 9; the source always starts it at 0): each iteration increments
the counter once and the safety limit ends the loop as soon as the
counter reaches 10. -/
theorem generateTextLoop_ok_le (endpoint : Endpoint) (tools : ToolSet)
    (stopWhen : Option (Nat → Bool)) :
    ∀ messages stepCount msgs n,
      generateTextLoop endpoint tools stopWhen messages stepCount = .ok (msgs, n) →
      n ≤ max 10 (stepCount + 1) := by
  intro messages stepCount
  induction messages, stepCount using generateTextLoop.induct endpoint tools stopWhen
  case case1 messages stepCount body heq =>
    intro msgs n h
    rw [generateTextLoop] at h
    rw [heq] at h
    exact Except.noConfusion h
  case case2 messages stepCount am heq hlen e hptc =>
    intro msgs n h
    rw [generateTextLoop] at h
    simp only [heq] at h
    rw [if_pos hlen] at h
    simp only [hptc] at h
    exact Except.noConfusion h
  case case3 messages stepCount am heq sc1 hlen tms hptc hguard =>
    intro msgs n h
    rw [generateTextLoop] at h
    simp only [heq] at h
    rw [if_pos hlen] at h
    simp only [hptc] at h
    rw [if_pos hguard] at h
    rw [Except.ok.injEq] at h
    have hn : stepCount + 1 = n := (Prod.mk.injEq _ _ _ _ ▸ h).2
    omega
  case case4 messages stepCount am heq m1 sc1 hlen tms hptc m2 hguard ih =>
    intro msgs n h
    rw [generateTextLoop] at h
    simp only [heq] at h
    rw [if_pos hlen] at h
    simp only [hptc] at h
    rw [if_neg hguard] at h
    have hn := ih msgs n h
    simp only [sc1, Bool.or_eq_true, decide_eq_true_eq, not_or] at hguard
    omega
  case case5 messages stepCount am heq hlen =>
    intro msgs n h
    rw [generateTextLoop] at h
    simp only [heq] at h
    rw [if_neg hlen] at h
    rw [Except.ok.injEq] at h
    have hn : stepCount + 1 = n := (Prod.mk.injEq _ _ _ _ ▸ h).2
    omega

/-- When the endpoint requests tools on every reply and the stop
predicate stays false at every count below `n` while firing at `n`
(or `n` is the safety ceiling), the loop runs to exactly `n` steps. -/
theorem generateTextLoop_tools_reaches (endpoint : Endpoint) (tools : ToolSet)
    (stopWhen : Option (Nat → Bool)) (n : Nat)
    (htools : ∀ j, j < n → ∃ am, endpoint j = .ok am ∧ am.tool_calls ≠ [] ∧
      ∃ ms, processToolCalls tools am.tool_calls = .ok ms)
    (hnostop : ∀ c, 0 < c → c < n → evalStopWhen stopWhen c = false ∧ c < 10)
    (hstop : evalStopWhen stopWhen n = true ∨ 10 ≤ n) :
    ∀ messages stepCount, stepCount < n →
      ∃ msgs, generateTextLoop endpoint tools stopWhen messages stepCount
        = .ok (msgs, n) := by
  intro messages stepCount
  induction messages, stepCount using generateTextLoop.induct endpoint tools stopWhen
  case case1 messages stepCount body heq =>
    intro hk
    obtain ⟨am, ham, _, _⟩ := htools stepCount hk
    rw [ham] at heq
    exact HttpResponse.noConfusion heq
  case case2 messages stepCount am heq hlen e hptc =>
    intro hk
    obtain ⟨am2, ham, _, ms, hms⟩ := htools stepCount hk
    rw [heq] at ham
    injection ham with ham
    rw [← ham] at hms
    rw [hms] at hptc
    exact Except.noConfusion hptc
  case case3 messages stepCount am heq sc1 hlen tms hptc hguard =>
    intro hk
    have hn : stepCount + 1 = n := by
      by_contra hne
      have hlt : stepCount + 1 < n := by omega
      obtain ⟨hsw, h10⟩ := hnostop (stepCount + 1) (by omega) hlt
      rw [show sc1 = stepCount + 1 from rfl, hsw] at hguard
      simp only [Bool.false_or, decide_eq_true_eq] at hguard
      omega
    refine ⟨messages ++ [{ role := am.role, content := am.content }] ++ tms, ?_⟩
    rw [generateTextLoop]
    simp only [heq]
    rw [if_pos hlen]
    simp only [hptc]
    rw [if_pos hguard, hn]
  case case4 messages stepCount am heq m1 sc1 hlen tms hptc m2 hguard ih =>
    intro hk
    have hlt : stepCount + 1 < n := by
      rcases Nat.lt_or_ge (stepCount + 1) n with h | h
      · exact h
      · exfalso
        have hn : stepCount + 1 = n := by omega
        apply hguard
        rcases hstop with hs | hs
        · rw [show sc1 = stepCount + 1 from rfl, hn, hs]
          simp
        · simp only [Bool.or_eq_true, decide_eq_true_eq]
          right
          omega
    obtain ⟨msgs, hmsgs⟩ := ih hlt
    refine ⟨msgs, ?_⟩
    rw [generateTextLoop]
    simp only [heq]
    rw [if_pos hlen]
    simp only [hptc]
    rw [if_neg hguard]
    exact hmsgs
  case case5 messages stepCount am heq hlen =>
    intro hk
    obtain ⟨am2, ham, hne, _⟩ := htools stepCount hk
    rw [heq] at ham
    injection ham with ham
    rw [← ham] at hne
    exact absurd (List.length_pos.mpr hne) hlen

/-- A non-2xx reply at the step the loop has reached throws
`"OpenRouter API error: <body>"` immediately: no retry, the error is
the loop's result. -/
theorem generateTextLoop_transport (endpoint : Endpoint) (tools : ToolSet)
    (stopWhen : Option (Nat → Bool)) (messages : List Message)
    (stepCount : Nat) (body : String)
    (h : endpoint stepCount = .err body) :
    generateTextLoop endpoint tools stopWhen messages stepCount
      = .error (.transportError ("OpenRouter API error: " ++ body)) := by
  rw [generateTextLoop, h]

/-- When every reply's tool calls are skipped (the walk appends
nothing) and no reply carries the `tool` role, the loop finishes
without error and never appends a tool-role message. -/
theorem generateTextLoop_no_tool_roles (endpoint : Endpoint) (tools : ToolSet)
    (stopWhen : Option (Nat → Bool))
    (hep : ∀ j, ∃ am, endpoint j = .ok am ∧ am.role ≠ "tool" ∧
      processToolCalls tools am.tool_calls = .ok []) :
    ∀ messages stepCount,
      ∃ msgs n, generateTextLoop endpoint tools stopWhen messages stepCount
        = .ok (msgs, n) ∧ ∀ m ∈ msgs, m ∈ messages ∨ m.role ≠ "tool" := by
  intro messages stepCount
  induction messages, stepCount using generateTextLoop.induct endpoint tools stopWhen
  case case1 messages stepCount body heq =>
    obtain ⟨am, ham, _, _⟩ := hep stepCount
    rw [ham] at heq
    exact HttpResponse.noConfusion heq
  case case2 messages stepCount am heq hlen e hptc =>
    obtain ⟨am2, ham, _, hms⟩ := hep stepCount
    rw [heq] at ham
    injection ham with ham
    rw [← ham] at hms
    rw [hms] at hptc
    exact Except.noConfusion hptc
  case case3 messages stepCount am heq sc1 hlen tms hptc hguard =>
    obtain ⟨am2, ham, hrole, hms⟩ := hep stepCount
    rw [heq] at ham
    injection ham with ham
    subst ham
    rw [hms] at hptc
    injection hptc with hptc
    subst hptc
    refine ⟨messages ++ [{ role := am.role, content := am.content }],
      stepCount + 1, ?_, ?_⟩
    · rw [generateTextLoop]
      simp only [heq]
      rw [if_pos hlen]
      simp only [hms]
      rw [if_pos hguard]
      simp
    · intro m hm
      rcases List.mem_append.mp hm with h1 | h1
      · exact Or.inl h1
      · rw [List.mem_singleton] at h1
        rw [h1]
        exact Or.inr hrole
  case case4 messages stepCount am heq m1 sc1 hlen tms hptc m2 hguard ih =>
    obtain ⟨am2, ham, hrole, hms⟩ := hep stepCount
    rw [heq] at ham
    injection ham with ham
    subst ham
    rw [hms] at hptc
    injection hptc with hptc
    subst hptc
    obtain ⟨msgs, n, hloop, hmem⟩ := ih
    refine ⟨msgs, n, ?_, ?_⟩
    · rw [generateTextLoop]
      simp only [heq]
      rw [if_pos hlen]
      simp only [hms]
      rw [if_neg hguard]
      exact hloop
    · intro m hm
      rcases hmem m hm with h1 | h1
      · have h2 : m ∈ messages ++
            [{ role := am.role, content := am.content : Message }] ++ [] := h1
        rw [List.append_nil] at h2
        rcases List.mem_append.mp h2 with h3 | h3
        · exact Or.inl h3
        · rw [List.mem_singleton] at h3
          rw [h3]
          exact Or.inr hrole
      · exact Or.inr h1
  case case5 messages stepCount am heq hlen =>
    obtain ⟨am2, ham, hrole, hms⟩ := hep stepCount
    rw [heq] at ham
    injection ham with ham
    subst ham
    refine ⟨messages ++ [{ role := am.role, content := am.content }],
      stepCount + 1, ?_, ?_⟩
    · rw [generateTextLoop]
      simp only [heq]
      rw [if_neg hlen]
    · intro m hm
      rcases List.mem_append.mp hm with h1 | h1
      · exact Or.inl h1
      · rw [List.mem_singleton] at h1
        rw [h1]
        exact Or.inr hrole

/-- When the reply of the loop's final round trip requested tools and
the walk appended at least one tool message, the final transcript ends
with a tool-role message. -/
theorem generateTextLoop_last_tool (endpoint : Endpoint) (tools : ToolSet)
    (stopWhen : Option (Nat → Bool)) :
    ∀ messages stepCount msgs n am tms,
      generateTextLoop endpoint tools stopWhen messages stepCount = .ok (msgs, n) →
      endpoint (n - 1) = .ok am →
      am.tool_calls ≠ [] →
      processToolCalls tools am.tool_calls = .ok tms →
      tms ≠ [] →
      ∃ m, msgs.getLast? = some m ∧ m.role = "tool" := by
  intro messages stepCount
  induction messages, stepCount using generateTextLoop.induct endpoint tools stopWhen
  case case1 messages stepCount body heq =>
    intro msgs n am tms h
    rw [generateTextLoop, heq] at h
    exact Except.noConfusion h
  case case2 messages stepCount am heq hlen e hptc =>
    intro msgs n am2 tms h
    rw [generateTextLoop] at h
    simp only [heq] at h
    rw [if_pos hlen] at h
    simp only [hptc] at h
    exact Except.noConfusion h
  case case3 messages stepCount am heq sc1 hlen tms hptc hguard =>
    intro msgs n am2 tms2 h ham2 hne2 hptc2 htne
    rw [generateTextLoop] at h
    simp only [heq] at h
    rw [if_pos hlen] at h
    simp only [hptc] at h
    rw [if_pos hguard] at h
    rw [Except.ok.injEq] at h
    have hmsgs : messages ++ [{ role := am.role, content := am.content }] ++ tms = msgs :=
      (Prod.mk.injEq _ _ _ _ ▸ h).1
    have hn : stepCount + 1 = n := (Prod.mk.injEq _ _ _ _ ▸ h).2
    have hstep : n - 1 = stepCount := by omega
    rw [hstep, heq] at ham2
    injection ham2 with ham2
    rw [← ham2] at hptc2
    rw [hptc] at hptc2
    injection hptc2 with hptc2
    have htne2 : tms ≠ [] := by rw [hptc2]; exact htne
    have hlast : msgs.getLast? = tms.getLast? := by
      rw [← hmsgs]
      exact List.getLast?_append_of_ne_nil _ htne2
    refine ⟨tms.getLast htne2, ?_, ?_⟩
    · rw [hlast]
      exact List.getLast?_eq_getLast_of_ne_nil htne2
    · exact processToolCalls_roles tools am.tool_calls tms hptc
        (tms.getLast htne2) (List.getLast_mem htne2)
  case case4 messages stepCount am heq m1 sc1 hlen tms hptc m2 hguard ih =>
    intro msgs n am2 tms2 h ham2 hne2 hptc2 htne
    rw [generateTextLoop] at h
    simp only [heq] at h
    rw [if_pos hlen] at h
    simp only [hptc] at h
    rw [if_neg hguard] at h
    exact ih msgs n am2 tms2 h ham2 hne2 hptc2 htne
  case case5 messages stepCount am heq hlen =>
    intro msgs n am2 tms2 h ham2 hne2 hptc2 htne
    rw [generateTextLoop] at h
    simp only [heq] at h
    rw [if_neg hlen] at h
    rw [Except.ok.injEq] at h
    have hn : stepCount + 1 = n := (Prod.mk.injEq _ _ _ _ ▸ h).2
    have hstep : n - 1 = stepCount := by omega
    rw [hstep, heq] at ham2
    injection ham2 with ham2
    rw [← ham2] at hne2
    exact absurd (List.length_pos.mpr hne2) hlen

/-- The returned text is computed from the loop's final transcript:
the last entry's content when its role is `assistant`, else empty. -/
theorem generateText_of_loop (endpoint : Endpoint) (system : Option String)
    (prompt : String) (tools : ToolSet) (stopWhen : Option (Nat → Bool))
    (msgs : List Message) (n : Nat) (m : Message)
    (hloop : generateTextLoop endpoint tools stopWhen
      (initialMessages system prompt) 0 = .ok (msgs, n))
    (hlast : msgs.getLast? = some m) :
    generateText endpoint system prompt tools stopWhen
      = .ok (if m.role = "assistant" then m.content else "") := by
  simp [generateText, hloop, hlast]

/-- An unparseable tool-argument string in the first reply aborts the
whole call with `MalformedToolArgs`. -/
theorem generateText_malformed_args (endpoint : Endpoint)
    (system : Option String) (prompt : String) (tools : ToolSet)
    (stopWhen : Option (Nat → Bool)) (am : AssistantMsg) (tc : ToolCallWire)
    (heq : endpoint 0 = .ok am) (htc : tc ∈ am.tool_calls)
    (hp : jsonParse tc.arguments = none) :
    ∃ s, generateText endpoint system prompt tools stopWhen
      = .error (.malformedToolArgs s) ∧ jsonParse s = none := by
  obtain ⟨s, hs, hsp⟩ := processToolCalls_malformed tools am.tool_calls ⟨tc, htc, hp⟩
  have hlen : am.tool_calls.length > 0 :=
    List.length_pos.mpr (fun hnil => by rw [hnil] at htc; cases htc)
  have hloop : generateTextLoop endpoint tools stopWhen
      (initialMessages system prompt) 0 = .error (.malformedToolArgs s) := by
    rw [generateTextLoop]
    simp only [heq]
    rw [if_pos hlen]
    simp only [hs]
  exact ⟨s, by simp [generateText, hloop], hsp⟩

/-- Scripted endpoint that requests one tool call (with empty-object
JSON arguments) on every reply. -/
def epToolsForever : Endpoint :=
  fun _ => .ok ⟨"assistant", "", [⟨"call_1", "search", "\x7b\x7d"⟩]⟩

/-- Scripted endpoint that replies with plain text and no tool calls. -/
def epPlainReply : Endpoint :=
  fun _ => .ok { role := "assistant", content := "hello", tool_calls := [] }

/-- Scripted endpoint whose reply carries a tool call with an
unparseable argument string. -/
def epBadArgs : Endpoint :=
  fun _ => .ok ⟨"assistant", "", [⟨"call_1", "search", "not json"⟩]⟩

/-- Scripted endpoint that always fails with a non-2xx reply. -/
def epDown : Endpoint := fun _ => .err "boom"

/-- A registered tool whose executor returns `null`. -/
def demoTool : ToolDef :=
  { description := "demo", inputSchema := .obj [], execute := fun _ => Json.null }

/-- A tool set registering `demoTool` under the name `search`. -/
def demoTools : ToolSet := some [("search", demoTool)]

/-- The initial transcript never contains a tool-role message. -/
theorem initialMessages_not_tool (system : Option String) (prompt : String) :
    ∀ m ∈ initialMessages system prompt, m.role ≠ "tool" := by
  intro m hm
  cases system with
  | none =>
      simp only [initialMessages, List.nil_append, List.mem_singleton] at hm
      rw [hm]
      simp
  | some s =>
      simp only [initialMessages, List.singleton_append, List.mem_cons] at hm
      rcases hm with h1 | h1 | h1
      · rw [h1]; simp
      · rw [h1]; simp
      · cases h1

/-- Counterexample to claim C1 as stated: against an endpoint that
returns tool calls on every reply, the run with `stopWhen =
stepCountIs 2` performs 2 steps, not 10 — the "exactly 10 steps"
outcome is not independent of the caller-supplied predicate. -/
theorem c1_counterexample :
    ∃ msgs, generateTextLoop epToolsForever none (some (stepCountIs 2))
        (initialMessages none "p") 0 = .ok (msgs, 2) ∧
      ∀ msgs2, generateTextLoop epToolsForever none (some (stepCountIs 2))
        (initialMessages none "p") 0 ≠ .ok (msgs2, 10) := by
  obtain ⟨msgs, h⟩ := generateTextLoop_tools_reaches epToolsForever none
    (some (stepCountIs 2)) 2
    (fun j _ => ⟨⟨"assistant", "", [⟨"call_1", "search", "\x7b\x7d"⟩]⟩,
      rfl, by simp, [], rfl⟩)
    (fun c h1 h2 => by
      have hc : c = 1 := by omega
      subst hc
      exact ⟨rfl, by omega⟩)
    (Or.inl rfl) (initialMessages none "p") 0 (by omega)
  refine ⟨msgs, h, ?_⟩
  intro msgs2 h2
  rw [h] at h2
  injection h2 with h2
  exact absurd (Prod.mk.injEq _ _ _ _ ▸ h2).2 (by decide)

/-- Claim C1 (amended): every run of the loop from the initial state
that terminates normally performs at most 10 round trips, for every
caller-supplied `stopWhen`; and against an endpoint that returns tool
calls on every reply, the loop performs exactly 10 steps provided the
stop predicate never fires below the ceiling (in particular when none
is supplied). -/
theorem c1_step_ceiling :
    (∀ (endpoint : Endpoint) (tools : ToolSet) (stopWhen : Option (Nat → Bool))
      (system : Option String) (prompt : String) (msgs : List Message) (n : Nat),
      generateTextLoop endpoint tools stopWhen (initialMessages system prompt) 0
        = .ok (msgs, n) → n ≤ 10)
    ∧ (∀ (endpoint : Endpoint) (tools : ToolSet) (stopWhen : Option (Nat → Bool))
      (system : Option String) (prompt : String),
      (∀ j, j < 10 → ∃ am, endpoint j = .ok am ∧ am.tool_calls ≠ [] ∧
        ∃ ms, processToolCalls tools am.tool_calls = .ok ms) →
      (∀ c, 0 < c → c < 10 → evalStopWhen stopWhen c = false) →
      ∃ msgs, generateTextLoop endpoint tools stopWhen
        (initialMessages system prompt) 0 = .ok (msgs, 10)) := by
  constructor
  · intro endpoint tools stopWhen sys prompt msgs n h
    have := generateTextLoop_ok_le endpoint tools stopWhen _ _ msgs n h
    omega
  · intro endpoint tools stopWhen sys prompt htools hnostop
    exact generateTextLoop_tools_reaches endpoint tools stopWhen 10 htools
      (fun c h1 h2 => ⟨hnostop c h1 h2, h2⟩) (Or.inr (by omega)) _ 0 (by omega)

/-- Witness for C1 (amended) at a concrete endpoint with no stop
predicate: the loop runs to exactly 10 steps. -/
theorem c1_witness :
    ∃ msgs, generateTextLoop epToolsForever none none
      (initialMessages none "p") 0 = .ok (msgs, 10) :=
  c1_step_ceiling.2 epToolsForever none none none "p"
    (fun j _ => ⟨⟨"assistant", "", [⟨"call_1", "search", "\x7b\x7d"⟩]⟩,
      rfl, by simp, [], rfl⟩)
    (fun c _ _ => rfl)

/-- Claim C4: a tool call naming an unregistered tool (with valid JSON
arguments) is skipped without error and without appending a tool-result
message, and a generation whose replies only ever reference such calls
finishes by the normal stopping rules with no tool-role message in the
transcript and no thrown error. -/
theorem c4_unregistered_tool_skipped :
    (∀ (tools : ToolSet) (tc : ToolCallWire) (rest : List ToolCallWire) (j : Json),
      jsonParse tc.arguments = some j → lookupTool tools tc.name = none →
      processToolCalls tools (tc :: rest) = processToolCalls tools rest)
    ∧ (∀ (endpoint : Endpoint) (tools : ToolSet) (stopWhen : Option (Nat → Bool))
        (system : Option String) (prompt : String),
      (∀ k, ∃ am, endpoint k = .ok am ∧ am.role = "assistant" ∧
        ∀ tc ∈ am.tool_calls, (∃ j, jsonParse tc.arguments = some j) ∧
          lookupTool tools tc.name = none) →
      ∃ msgs n, generateTextLoop endpoint tools stopWhen
          (initialMessages system prompt) 0 = .ok (msgs, n)
        ∧ (∀ m ∈ msgs, m.role ≠ "tool")
        ∧ ∃ t, generateText endpoint system prompt tools stopWhen = .ok t) := by
  constructor
  · exact processToolCalls_skip
  · intro endpoint tools stopWhen sys prompt hep
    have hep2 : ∀ j, ∃ am, endpoint j = .ok am ∧ am.role ≠ "tool" ∧
        processToolCalls tools am.tool_calls = .ok [] := by
      intro j
      obtain ⟨am, ham, hrole, hcalls⟩ := hep j
      exact ⟨am, ham, by rw [hrole]; simp,
        processToolCalls_all_skip tools am.tool_calls hcalls⟩
    obtain ⟨msgs, n, hloop, hmem⟩ :=
      generateTextLoop_no_tool_roles endpoint tools stopWhen hep2
        (initialMessages sys prompt) 0
    refine ⟨msgs, n, hloop, ?_, ?_⟩
    · intro m hm
      rcases hmem m hm with h1 | h1
      · exact initialMessages_not_tool sys prompt m h1
      · exact h1
    · cases hg : msgs.getLast? with
      | none => exact ⟨"", by simp [generateText, hloop, hg]⟩
      | some m =>
          exact ⟨_, generateText_of_loop endpoint sys prompt tools stopWhen
            msgs n m hloop hg⟩

/-- Witness for C4: an endpoint that always calls the unregistered name
`search` with no tool set supplied — the call succeeds and the
transcript carries no tool message. -/
theorem c4_witness :
    ∃ msgs n, generateTextLoop epToolsForever none none
        (initialMessages none "p") 0 = .ok (msgs, n)
      ∧ (∀ m ∈ msgs, m.role ≠ "tool")
      ∧ ∃ t, generateText epToolsForever none "p" none none = .ok t :=
  c4_unregistered_tool_skipped.2 epToolsForever none none none "p"
    (fun k => ⟨⟨"assistant", "", [⟨"call_1", "search", "\x7b\x7d"⟩]⟩, rfl, rfl,
      by
        intro tc htc
        rw [List.mem_singleton] at htc
        subst htc
        exact ⟨⟨Json.obj [], rfl⟩, rfl⟩⟩)

/-- Claim C5: a tool call whose argument string is not valid JSON makes
`generateText` throw `MalformedToolArgs` and abort the loop — for any
tool set, registered or not, because argument parsing happens before
the lookup. -/
theorem c5_malformed_tool_args :
    (∀ (tools : ToolSet) (tcs : List ToolCallWire),
      (∃ tc ∈ tcs, jsonParse tc.arguments = none) →
      ∃ s, processToolCalls tools tcs = .error (.malformedToolArgs s)
        ∧ jsonParse s = none)
    ∧ (∀ (endpoint : Endpoint) (system : Option String) (prompt : String)
        (tools : ToolSet) (stopWhen : Option (Nat → Bool)) (am : AssistantMsg)
        (tc : ToolCallWire),
      endpoint 0 = .ok am → tc ∈ am.tool_calls → jsonParse tc.arguments = none →
      ∃ s, generateText endpoint system prompt tools stopWhen
        = .error (.malformedToolArgs s) ∧ jsonParse s = none) :=
  ⟨processToolCalls_malformed,
   fun endpoint system prompt tools stopWhen am tc heq htc hp =>
     generateText_malformed_args endpoint system prompt tools stopWhen am tc heq htc hp⟩

/-- Witness for C5: the bad-arguments endpoint aborts the call even
though no tool set is supplied (the name is unregistered). -/
theorem c5_witness :
    ∃ s, generateText epBadArgs none "p" none none
      = .error (.malformedToolArgs s) ∧ jsonParse s = none :=
  c5_malformed_tool_args.2 epBadArgs none "p" none none
    ⟨"assistant", "", [⟨"call_1", "search", "not json"⟩]⟩
    ⟨"call_1", "search", "not json"⟩ rfl (by simp) rfl

/-- Claim C6: `stepCountIs n` is the pure predicate `currentCount >= n`,
and passing `stopWhen = stepCountIs 2` against an endpoint that keeps
requesting tools ends the loop after exactly 2 tool-executing turns. -/
theorem c6_stepCountIs :
    (∀ n c, stepCountIs n c = true ↔ c ≥ n)
    ∧ (∀ (endpoint : Endpoint) (tools : ToolSet) (system : Option String)
        (prompt : String),
      (∀ j, j < 2 → ∃ am, endpoint j = .ok am ∧ am.tool_calls ≠ [] ∧
        ∃ ms, processToolCalls tools am.tool_calls = .ok ms) →
      ∃ msgs, generateTextLoop endpoint tools (some (stepCountIs 2))
        (initialMessages system prompt) 0 = .ok (msgs, 2)) := by
  constructor
  · intro n c
    simp [stepCountIs, ge_iff_le]
  · intro endpoint tools sys prompt htools
    refine generateTextLoop_tools_reaches endpoint tools (some (stepCountIs 2)) 2
      htools ?_ (Or.inl rfl) _ 0 (by omega)
    intro c h1 h2
    have hc : c = 1 := by omega
    subst hc
    exact ⟨rfl, by omega⟩

/-- Witness for C6 at the concrete always-tools endpoint. -/
theorem c6_witness :
    ∃ msgs, generateTextLoop epToolsForever none (some (stepCountIs 2))
      (initialMessages none "p") 0 = .ok (msgs, 2) :=
  c6_stepCountIs.2 epToolsForever none none "p"
    (fun j _ => ⟨⟨"assistant", "", [⟨"call_1", "search", "\x7b\x7d"⟩]⟩,
      rfl, by simp, [], rfl⟩)

/-- Claim C8: a non-2xx HTTP response makes both entry points throw an
error whose message is `"OpenRouter API error: "` followed by the raw
response body; the failing result is produced by the round trip that
failed, with no internal retry. -/
theorem c8_api_error_propagation :
    (∀ (endpoint : Endpoint) (tools : ToolSet) (stopWhen : Option (Nat → Bool))
        (messages : List Message) (stepCount : Nat) (body : String),
      endpoint stepCount = .err body →
      generateTextLoop endpoint tools stopWhen messages stepCount
        = .error (.transportError ("OpenRouter API error: " ++ body)))
    ∧ (∀ (endpoint : Endpoint) (system : Option String) (prompt : String)
        (tools : ToolSet) (stopWhen : Option (Nat → Bool)) (body : String),
      endpoint 0 = .err body →
      generateText endpoint system prompt tools stopWhen
        = .error (.transportError ("OpenRouter API error: " ++ body)))
    ∧ (∀ (body : String) (schema : SchemaNode),
      generateObject (.err body) schema
        = .error (.transportError ("OpenRouter API error: " ++ body))) := by
  refine ⟨generateTextLoop_transport, ?_, ?_⟩
  · intro endpoint sys prompt tools stopWhen body h
    have h2 := generateTextLoop_transport endpoint tools stopWhen
      (initialMessages sys prompt) 0 body h
    simp [generateText, h2]
  · intro body schema
    rfl

/-- Witness for C8 at a concretely failing endpoint. -/
theorem c8_witness :
    generateText epDown none "p" none none
      = .error (.transportError ("OpenRouter API error: " ++ "boom"))
    ∧ generateObject (.err "boom") nameSchema
      = .error (.transportError ("OpenRouter API error: " ++ "boom")) :=
  ⟨c8_api_error_propagation.2.1 epDown none "p" none none "boom" rfl,
   c8_api_error_propagation.2.2 "boom" nameSchema⟩

/-- Claim C9: for every normally terminating run, the returned text is
the content of the final transcript entry when that entry has the
assistant role, and the empty string otherwise. -/
theorem c9_final_text :
    ∀ (endpoint : Endpoint) (system : Option String) (prompt : String)
      (tools : ToolSet) (stopWhen : Option (Nat → Bool)) (msgs : List Message)
      (n : Nat) (m : Message),
      generateTextLoop endpoint tools stopWhen (initialMessages system prompt) 0
        = .ok (msgs, n) →
      msgs.getLast? = some m →
      generateText endpoint system prompt tools stopWhen
        = .ok (if m.role = "assistant" then m.content else "") :=
  fun endpoint system prompt tools stopWhen msgs n m h1 h2 =>
    generateText_of_loop endpoint system prompt tools stopWhen msgs n m h1 h2

/-- Witness for C9: a plain-text reply is returned as the final text. -/
theorem c9_witness : generateText epPlainReply none "p" none none = .ok "hello" := by
  have hloop : generateTextLoop epPlainReply none none (initialMessages none "p") 0
      = .ok ([⟨"user", "p", none, none⟩, ⟨"assistant", "hello", none, none⟩], 1) := by
    rw [generateTextLoop]
    rfl
  have h := c9_final_text epPlainReply none "p" none none
    [⟨"user", "p", none, none⟩, ⟨"assistant", "hello", none, none⟩] 1
    ⟨"assistant", "hello", none, none⟩ hloop rfl
  simpa using h

/-- Claim C10: when a normally terminating run's final round trip
requested tools and at least one registered tool was executed in that
turn, the transcript ends with a tool-role message and the call
returns the empty string. -/
theorem c10_tool_tail_empty_text :
    ∀ (endpoint : Endpoint) (system : Option String) (prompt : String)
      (tools : ToolSet) (stopWhen : Option (Nat → Bool)) (msgs : List Message)
      (n : Nat) (am : AssistantMsg) (tms : List Message),
      generateTextLoop endpoint tools stopWhen (initialMessages system prompt) 0
        = .ok (msgs, n) →
      endpoint (n - 1) = .ok am →
      am.tool_calls ≠ [] →
      processToolCalls tools am.tool_calls = .ok tms →
      tms ≠ [] →
      (∃ m, msgs.getLast? = some m ∧ m.role = "tool")
      ∧ generateText endpoint system prompt tools stopWhen = .ok "" := by
  intro endpoint sys prompt tools stopWhen msgs n am tms hloop ham hne hptc htne
  obtain ⟨m, hm, hrole⟩ := generateTextLoop_last_tool endpoint tools stopWhen
    (initialMessages sys prompt) 0 msgs n am tms hloop ham hne hptc htne
  refine ⟨⟨m, hm, hrole⟩, ?_⟩
  have h := generateText_of_loop endpoint sys prompt tools stopWhen msgs n m hloop hm
  rw [if_neg (by rw [hrole]; simp)] at h
  exact h

/-- Witness for C10: one turn executing the registered `search` tool
under `stopWhen = stepCountIs 1` ends with a tool message and empty
text. -/
theorem c10_witness :
    (∃ m, ([⟨"user", "p", none, none⟩, ⟨"assistant", "", none, none⟩,
        (⟨"tool", "null", some "call_1", some "search"⟩ : Message)] :
          List Message).getLast? = some m ∧ m.role = "tool")
    ∧ generateText epToolsForever none "p" demoTools (some (stepCountIs 1))
        = .ok "" := by
  have hloop : generateTextLoop epToolsForever demoTools (some (stepCountIs 1))
      (initialMessages none "p") 0
      = .ok ([⟨"user", "p", none, none⟩, ⟨"assistant", "", none, none⟩,
          ⟨"tool", "null", some "call_1", some "search"⟩], 1) := by
    rw [generateTextLoop]
    rfl
  exact c10_tool_tail_empty_text epToolsForever none "p" demoTools
    (some (stepCountIs 1))
    [⟨"user", "p", none, none⟩, ⟨"assistant", "", none, none⟩,
      ⟨"tool", "null", some "call_1", some "search"⟩] 1
    ⟨"assistant", "", [⟨"call_1", "search", "\x7b\x7d"⟩]⟩
    [⟨"tool", "null", some "call_1", some "search"⟩]
    hloop rfl (by simp) rfl (by simp)

end DraftlyAI
